import Mathlib

/-!
WorkHourTracker time accounting engine, embedded from
src/server/src/utils/time.js.

Instants are UTC epoch milliseconds, modelled as Int (JS Date values).
Calendar dates are local day numbers, modelled as Int: the source renders a
date as the string produced by toFormat with pattern yyyy-MM-dd, an
injective and order-preserving encoding of the local calendar day, so the
local day number (days since 1970-01-01 in the zone) is used as the date
key here. Day number 0 is 1970-01-01, which was a Thursday.
-/

namespace WorkHourTracker

/-- A per-day duration bucket produced by splitSessionByDay: the object
pushed with fields date and durationMs in the source. -/
structure Segment where
  date : Int
  durationMs : Int
deriving DecidableEq

/-- A work session as stored by the server: startAt is an instant, endAt is
null (here none) for an open session that is still accumulating time. -/
structure Session where
  startAt : Int
  endAt : Option Int
deriving DecidableEq

/-- A valid IANA timezone, abstracted by the two calendar operations the
day-splitting code uses together with the laws every zone of the IANA
database satisfies.

dateOf t is the local calendar day holding instant t (the key rendered by
toFormat yyyy-MM-dd in the source); nextMidnight t is the instant computed
by cursor.plus one day followed by startOf day: the first local midnight
strictly after t.

The laws: that midnight is strictly after t, and it belongs to the local
calendar day right after that of t. On a DST transition day the distance
from t to nextMidnight t is not a fixed 24 hours; this interface
deliberately does not require any fixed stride. -/
structure Timezone where
  dateOf : Int → Int
  nextMidnight : Int → Int
  lt_nextMidnight : ∀ t, t < nextMidnight t
  dateOf_nextMidnight : ∀ t, dateOf (nextMidnight t) = dateOf t + 1

/-- A fixed-offset zone, off milliseconds east of UTC: the exact semantics
of the IANA zones with no DST rule (for example UTC and Asia/Kolkata). The
local day of t is floor of (t + off) / 86400000 and local midnights are the
instants mapping to multiples of 86400000 in local frame. -/
def offsetZone (off : Int) : Timezone where
  dateOf t := (t + off) / 86400000
  nextMidnight t := ((t + off) / 86400000 + 1) * 86400000 - off
  lt_nextMidnight t := by
    show t < ((t + off) / 86400000 + 1) * 86400000 - off
    omega
  dateOf_nextMidnight t := by
    show (((t + off) / 86400000 + 1) * 86400000 - off + off) / 86400000
        = (t + off) / 86400000 + 1
    omega

/-- The UTC zone. -/
def utcTz : Timezone := offsetZone 0

/-- Asia/Kolkata, the zone used throughout the unit tests of the source:
UTC+05:30, no DST. -/
def istTz : Timezone := offsetZone 19800000

/-- The end instant the split works with: endAt when the session is closed,
the evaluation-time now when it is open (the source uses DateTime.now for
an active session). -/
def effectiveEnd (session : Session) (now : Int) : Int :=
  match session.endAt with
  | some e => e
  | none => now

/-- The while loop of splitSessionByDay. The loop runs while cursor is
before the session end; each iteration cuts the segment at the next local
midnight or at the session end, whichever comes first, pushes the segment
when its duration is positive, and advances the cursor to that midnight.

The recursion is driven by a fuel argument: every iteration advances the
cursor by at least one millisecond (law lt_nextMidnight), so any fuel of at
least endT - cursor milliseconds makes the recursion identical to the
source loop; splitSessionByDay below always supplies such a fuel. -/
def splitLoop (tz : Timezone) : Nat → Int → Int → List Segment
  | 0, _, _ => []
  | fuel + 1, endT, cursor =>
    if cursor < endT then
      let nextMidnight := tz.nextMidnight cursor
      let segmentEnd := if nextMidnight < endT then nextMidnight else endT
      let durationMs := segmentEnd - cursor
      let rest := splitLoop tz fuel endT nextMidnight
      if 0 < durationMs then ⟨tz.dateOf cursor, durationMs⟩ :: rest else rest
    else []

/-- splitSessionByDay from the source: split a single work session into
per-day duration buckets in the given timezone, returning the empty list
when the effective end is not after the start. -/
def splitSessionByDay (session : Session) (tz : Timezone) (now : Int) : List Segment :=
  let start := session.startAt
  let endT := effectiveEnd session now
  if endT ≤ start then []
  else splitLoop tz ((endT - start).toNat + 1) endT start

/-- Sum of the durationMs fields of a segment list. -/
def sumDurations (segments : List Segment) : Int :=
  (segments.map Segment.durationMs).sum

/-- Luxon comparison a < b between DateTime values, where none stands for
the Invalid DateTime produced by an unrecognized zone name: JS compares the
valueOf results, and the valueOf of an Invalid DateTime is NaN, so every
comparison involving it is false. -/
def dtLT : Option Int → Option Int → Bool
  | some a, some b => decide (a < b)
  | _, _ => false

/-- Luxon comparison a <= b between DateTime values; false whenever either
side is the Invalid DateTime, as for dtLT. -/
def dtLE : Option Int → Option Int → Bool
  | some a, some b => decide (a ≤ b)
  | _, _ => false

/-- DateTime.fromJSDate of instant t with a zone option: an unrecognized
IANA zone name (none) yields the Invalid DateTime, a valid zone yields a
DateTime sitting at instant t. -/
def fromJSDate (zone : Option Timezone) (t : Int) : Option Int :=
  match zone with
  | some _ => some t
  | none => none

/-- DateTime.now().setZone(zone): the current instant in the zone, Invalid
when the zone name is unrecognized. -/
def nowInZone (zone : Option Timezone) (now : Int) : Option Int :=
  fromJSDate zone now

/-- splitSessionByDay as called with a zone name that may be invalid,
following the Luxon semantics: with an unrecognized zone both endpoints are
Invalid DateTimes, the early-return test end <= start is a NaN comparison
and therefore false, and the while loop guard cursor < end is likewise
false on entry, so the loop body never runs and the function returns the
empty list without surfacing any error. With a valid zone both endpoints
are valid and the DateTime comparisons coincide with instant comparisons,
so the body is exactly splitSessionByDay. -/
def splitSessionByDayZ (session : Session) (zone : Option Timezone) (now : Int) : List Segment :=
  let start := fromJSDate zone session.startAt
  let endDT := match session.endAt with
    | some e => fromJSDate zone e
    | none => nowInZone zone now
  if dtLE endDT start then []
  else
    match zone, start, endDT with
    | some tz, some s, some e => splitLoop tz ((e - s).toNat + 1) e s
    | _, _, _ => []

/-- computeDayTotal from the source: total worked milliseconds on one
calendar day; every session is split by day and only the portions whose
date equals the target date are accumulated. -/
def computeDayTotal (sessions : List Session) (date : Int) (tz : Timezone) (now : Int) : Int :=
  sessions.foldl
    (fun totalMs session =>
      (splitSessionByDay session tz now).foldl
        (fun acc seg => if seg.date = date then acc + seg.durationMs else acc)
        totalMs)
    0

/-- computeRangeTotal from the source: total worked milliseconds across a
date range. The source builds a Set from the dates array and tests
membership with has, which is exactly list membership of the date key. -/
def computeRangeTotal (sessions : List Session) (dates : List Int) (tz : Timezone) (now : Int) : Int :=
  sessions.foldl
    (fun totalMs session =>
      (splitSessionByDay session tz now).foldl
        (fun acc seg => if seg.date ∈ dates then acc + seg.durationMs else acc)
        totalMs)
    0

/-- computeProgressPercent from the source, over exact rationals standing
for JS numbers: 100 for a non-positive goal, otherwise the worked share of
the goal in percent, capped at 100. -/
def computeProgressPercent (workedMs goalHours : ℚ) : ℚ :=
  if goalHours ≤ 0 then 100
  else min 100 (workedMs / (goalHours * 3600000) * 100)

/-- String.padStart(n, c) of JS: pad on the left with c up to length n;
strings already at least n characters long are returned unchanged. -/
def padStart (s : String) (n : Nat) (c : Char) : String :=
  if n ≤ s.length then s else String.mk (List.replicate (n - s.length) c) ++ s

/-- formatDuration from the source: floor milliseconds to total minutes,
split into hours and minutes of hour, zero-pad each to width 2 and join
with a colon. -/
def formatDuration (ms : Nat) : String :=
  let totalMinutes := ms / 60000
  let hours := totalMinutes / 60
  let minutes := totalMinutes % 60
  padStart (toString hours) 2 '0' ++ ":" ++ padStart (toString minutes) 2 '0'

/-- consec d n is the list of n consecutive integers starting at d; the
shape of every date list the engine emits. -/
def consec (d : Int) : Nat → List Int
  | 0 => []
  | n + 1 => d :: consec (d + 1) n

/-- The date-collecting loop shared by getWeekBounds and getMonthBounds in
the source: starting from a range start, push the date key of the cursor
and advance the cursor by one calendar day while it is before the range
end. Fuel-driven exactly like splitLoop; the callers supply sufficient
fuel. -/
def datesLoop (plusDay dateOf : Int → Int) : Nat → Int → Int → List Int
  | 0, _, _ => []
  | fuel + 1, cursor, stop =>
    if cursor < stop then dateOf cursor :: datesLoop plusDay dateOf fuel (plusDay cursor) stop
    else []

/-- The record returned by getWeekBounds and getMonthBounds: the range
endpoints as instants (toJSDate in the source) plus the list of date keys
inside the range. -/
structure Bounds where
  rangeStart : Int
  rangeEnd : Int
  dates : List Int
deriving DecidableEq

/-- The calendar operations of a timezone used by getWeekBounds, with their
IANA laws: dateOf and plusDay as before (toFormat yyyy-MM-dd and plus one
day), startOfWeek t the local Monday midnight of the week holding t (Luxon
startOf week, weekday 1 being Monday), plusWeek the Luxon plus of one week.

Laws: a day step is strictly forward and lands on the next calendar day;
the start of the week is not after t and its week covers t; the start of
the week falls on a Monday (day number 0 is Thursday 1970-01-01, so day d
is a Monday exactly when (d + 3) % 7 = 0); and one week after a Monday
midnight is seven day steps later. -/
structure WeekZone where
  dateOf : Int → Int
  plusDay : Int → Int
  startOfWeek : Int → Int
  plusWeek : Int → Int
  lt_plusDay : ∀ t, t < plusDay t
  dateOf_plusDay : ∀ t, dateOf (plusDay t) = dateOf t + 1
  startOfWeek_le : ∀ t, startOfWeek t ≤ t
  lt_plusWeek : ∀ t, t < plusWeek (startOfWeek t)
  monday_startOfWeek : ∀ t, (dateOf (startOfWeek t) + 3) % 7 = 0
  plusWeek_iterate : ∀ t,
    plusWeek (startOfWeek t) =
      plusDay (plusDay (plusDay (plusDay (plusDay (plusDay (plusDay (startOfWeek t)))))))

/-- The calendar operations of a timezone used by getMonthBounds, with
their laws: startOfMonth t is the local midnight of the first day of the
month holding t (Luxon startOf month) and plusMonth the Luxon plus of one
month. One month after the first of a month is some positive number of day
steps later (28 to 31 in the Gregorian calendar; only positivity is needed
here). -/
structure MonthZone where
  dateOf : Int → Int
  plusDay : Int → Int
  startOfMonth : Int → Int
  plusMonth : Int → Int
  lt_plusDay : ∀ t, t < plusDay t
  dateOf_plusDay : ∀ t, dateOf (plusDay t) = dateOf t + 1
  startOfMonth_le : ∀ t, startOfMonth t ≤ t
  lt_plusMonth : ∀ t, t < plusMonth (startOfMonth t)
  plusMonth_iterate : ∀ t, ∃ n : Nat, 0 < n ∧
    plusMonth (startOfMonth t) = plusDay^[n] (startOfMonth t)

/-- getWeekBounds from the source. The source takes only the timezone and
reads DateTime.now() internally; that hidden clock reading is the explicit
now parameter here. Monday is the start of the current week, the range
runs to the following Monday, and the dates array is collected one day at
a time. -/
def getWeekBounds (wz : WeekZone) (now : Int) : Bounds :=
  let monday := wz.startOfWeek now
  let nextMonday := wz.plusWeek monday
  { rangeStart := monday
    rangeEnd := nextMonday
    dates := datesLoop wz.plusDay wz.dateOf ((nextMonday - monday).toNat + 1) monday nextMonday }

/-- getMonthBounds from the source; the same shape as getWeekBounds with
the current month in place of the current week, including the internal
DateTime.now() reading made explicit. -/
def getMonthBounds (mz : MonthZone) (now : Int) : Bounds :=
  let monthStart := mz.startOfMonth now
  let nextMonth := mz.plusMonth monthStart
  { rangeStart := monthStart
    rangeEnd := nextMonth
    dates := datesLoop mz.plusDay mz.dateOf ((nextMonth - monthStart).toNat + 1) monthStart nextMonth }

/-- The week operations of the UTC zone: fixed offset zero, so local day
numbers are floor (t / 86400000), a day step is 86400000 milliseconds and a
week is 604800000. -/
def utcWeekZone : WeekZone where
  dateOf t := t / 86400000
  plusDay t := t + 86400000
  startOfWeek t := (t / 86400000 - (t / 86400000 + 3) % 7) * 86400000
  plusWeek t := t + 604800000
  lt_plusDay t := by show t < t + 86400000; omega
  dateOf_plusDay t := by show (t + 86400000) / 86400000 = t / 86400000 + 1; omega
  startOfWeek_le t := by
    show (t / 86400000 - (t / 86400000 + 3) % 7) * 86400000 ≤ t
    omega
  lt_plusWeek t := by
    show t < (t / 86400000 - (t / 86400000 + 3) % 7) * 86400000 + 604800000
    omega
  monday_startOfWeek t := by
    show ((t / 86400000 - (t / 86400000 + 3) % 7) * 86400000 / 86400000 + 3) % 7 = 0
    omega
  plusWeek_iterate t := by
    show (t / 86400000 - (t / 86400000 + 3) % 7) * 86400000 + 604800000
        = (t / 86400000 - (t / 86400000 + 3) % 7) * 86400000 + 86400000 + 86400000
          + 86400000 + 86400000 + 86400000 + 86400000 + 86400000
    omega

/-- A zone whose months all last 30 days, witnessing that the MonthZone
interface is satisfiable; the Gregorian months of the real zones satisfy
the same laws with month lengths between 28 and 31 days. No theorem below
depends on which inhabitant is used. -/
def uniformMonthZone : MonthZone where
  dateOf t := t / 86400000
  plusDay t := t + 86400000
  startOfMonth t := (t / 86400000 - t / 86400000 % 30) * 86400000
  plusMonth t := t + 2592000000
  lt_plusDay t := by show t < t + 86400000; omega
  dateOf_plusDay t := by show (t + 86400000) / 86400000 = t / 86400000 + 1; omega
  startOfMonth_le t := by
    show (t / 86400000 - t / 86400000 % 30) * 86400000 ≤ t
    omega
  lt_plusMonth t := by
    show t < (t / 86400000 - t / 86400000 % 30) * 86400000 + 2592000000
    omega
  plusMonth_iterate t := by
    refine ⟨30, by omega, ?_⟩
    have key : ∀ (n : Nat) (x : Int), (fun u => u + 86400000)^[n] x = x + n * 86400000 := by
      intro n
      induction n with
      | zero => intro x; simp
      | succ n ih =>
        intro x
        rw [Function.iterate_succ_apply, ih (x + 86400000)]
        push_cast
        ring
    show (t / 86400000 - t / 86400000 % 30) * 86400000 + 2592000000
        = (fun u => u + 86400000)^[30] ((t / 86400000 - t / 86400000 % 30) * 86400000)
    rw [key]
    omega

/-- A loop whose cursor has already reached the end produces nothing,
whatever the fuel. -/
theorem splitLoop_stop (tz : Timezone) (fuel : Nat) (endT cursor : Int)
    (h : ¬ cursor < endT) : splitLoop tz fuel endT cursor = [] := by
  cases fuel with
  | zero => rfl
  | succ fuel => simp [splitLoop, h]

theorem sumDurations_nil : sumDurations [] = 0 := rfl

theorem sumDurations_cons (seg : Segment) (l : List Segment) :
    sumDurations (seg :: l) = seg.durationMs + sumDurations l := by
  simp [sumDurations]

/-- Telescoping sum of the split loop: with sufficient fuel, the emitted
durations add up to the remaining span exactly. -/
theorem splitLoop_sum (tz : Timezone) :
    ∀ (fuel : Nat) (endT cursor : Int), cursor < endT → (endT - cursor).toNat ≤ fuel →
      sumDurations (splitLoop tz fuel endT cursor) = endT - cursor := by
  intro fuel
  induction fuel with
  | zero => intro endT cursor h hf; omega
  | succ fuel ih =>
    intro endT cursor h hf
    have hnm := tz.lt_nextMidnight cursor
    simp only [splitLoop, if_pos h]
    by_cases hm : tz.nextMidnight cursor < endT
    · rw [if_pos hm, if_pos (by omega), sumDurations_cons,
        ih endT (tz.nextMidnight cursor) hm (by omega)]
      dsimp only
      omega
    · rw [if_neg hm, if_pos (by omega), sumDurations_cons,
        splitLoop_stop tz fuel endT (tz.nextMidnight cursor) hm, sumDurations_nil]
      dsimp only
      omega

theorem consec_zero (d : Int) : consec d 0 = [] := rfl

theorem consec_succ (d : Int) (n : Nat) : consec d (n + 1) = d :: consec (d + 1) n := rfl

theorem le_of_mem_consec : ∀ (n : Nat) (d x : Int), x ∈ consec d n → d ≤ x := by
  intro n
  induction n with
  | zero => intro d x hx; simp [consec] at hx
  | succ n ih =>
    intro d x hx
    rw [consec_succ] at hx
    rcases List.mem_cons.mp hx with h | h
    · omega
    · have := ih (d + 1) x h
      omega

/-- Consecutive integer lists are strictly increasing pairwise. -/
theorem consec_pairwise_lt : ∀ (n : Nat) (d : Int), (consec d n).Pairwise (· < ·) := by
  intro n
  induction n with
  | zero => intro d; simp [consec]
  | succ n ih =>
    intro d
    rw [consec_succ, List.pairwise_cons]
    exact ⟨fun x hx => by have := le_of_mem_consec n (d + 1) x hx; omega, ih (d + 1)⟩

/-- Adjacent entries of a consecutive integer list differ by exactly one. -/
theorem consec_chain : ∀ (n : Nat) (d : Int),
    List.Chain' (fun a b => b = a + 1) (consec d n) := by
  intro n
  induction n with
  | zero => intro d; simp [consec]
  | succ n ih =>
    intro d
    rw [consec_succ]
    cases n with
    | zero => simp [consec]
    | succ n =>
      rw [consec_succ, List.chain'_cons]
      have := ih (d + 1)
      rw [consec_succ] at this
      exact ⟨rfl, this⟩

theorem consec_nodup (n : Nat) (d : Int) : (consec d n).Nodup :=
  (consec_pairwise_lt n d).imp fun h => ne_of_lt h

/-- The dates emitted by the split loop form a nonempty consecutive run of
local calendar days starting at the day of the cursor. -/
theorem splitLoop_dates (tz : Timezone) :
    ∀ (fuel : Nat) (endT cursor : Int), cursor < endT → (endT - cursor).toNat ≤ fuel →
      ∃ n : Nat, 0 < n ∧
        (splitLoop tz fuel endT cursor).map Segment.date = consec (tz.dateOf cursor) n := by
  intro fuel
  induction fuel with
  | zero => intro endT cursor h hf; omega
  | succ fuel ih =>
    intro endT cursor h hf
    have hnm := tz.lt_nextMidnight cursor
    simp only [splitLoop, if_pos h]
    by_cases hm : tz.nextMidnight cursor < endT
    · obtain ⟨n, hn, heq⟩ := ih endT (tz.nextMidnight cursor) hm (by omega)
      refine ⟨n + 1, by omega, ?_⟩
      rw [if_pos hm, if_pos (by omega), List.map_cons, heq,
        tz.dateOf_nextMidnight cursor, consec_succ]
    · refine ⟨1, by omega, ?_⟩
      rw [if_neg hm, if_pos (by omega),
        splitLoop_stop tz fuel endT (tz.nextMidnight cursor) hm]
      rfl

/-- C1: for every session and timezone, when the effective end (endAt if
present, else the evaluation-time now) is strictly after startAt, the
durations of the segments returned by splitSessionByDay sum to the full
span effectiveEnd - startAt; when the effective end is at or before
startAt the sum is 0. The split is duration-preserving. -/
theorem C1_split_duration_preserving (s : Session) (tz : Timezone) (now : Int) :
    (s.startAt < effectiveEnd s now →
      sumDurations (splitSessionByDay s tz now) = effectiveEnd s now - s.startAt) ∧
    (effectiveEnd s now ≤ s.startAt → sumDurations (splitSessionByDay s tz now) = 0) := by
  constructor
  · intro h
    simp only [splitSessionByDay, if_neg (by omega : ¬ effectiveEnd s now ≤ s.startAt)]
    exact splitLoop_sum tz _ _ _ h (by omega)
  · intro h
    simp only [splitSessionByDay, if_pos h]
    rfl

/-- C1 witness: the overnight session of the unit tests, 23:00 to 02:00
Asia/Kolkata local time on 2026-02-14, covers exactly its three hours. -/
theorem C1_split_duration_preserving_witness :
    ((1771090200000 : Int) < effectiveEnd ⟨1771090200000, some 1771101000000⟩ 0) ∧
    sumDurations (splitSessionByDay ⟨1771090200000, some 1771101000000⟩ istTz 0)
      = effectiveEnd ⟨1771090200000, some 1771101000000⟩ 0 - 1771090200000 :=
  ⟨by decide,
   (C1_split_duration_preserving ⟨1771090200000, some 1771101000000⟩ istTz 0).1 (by decide)⟩

/-- C4: for every session whose effective end is after its start and every
timezone, the segment list of splitSessionByDay is chronological: the
emitted dates are a nonempty run of consecutive local calendar days
starting at the day of startAt, hence strictly increasing with no gaps and
no date repeated within the output of the call. -/
theorem C4_split_dates_consecutive (s : Session) (tz : Timezone) (now : Int)
    (h : s.startAt < effectiveEnd s now) :
    (∃ n : Nat, 0 < n ∧
      (splitSessionByDay s tz now).map Segment.date = consec (tz.dateOf s.startAt) n) ∧
    List.Chain' (fun a b => b = a + 1) ((splitSessionByDay s tz now).map Segment.date) ∧
    ((splitSessionByDay s tz now).map Segment.date).Pairwise (· < ·) ∧
    ((splitSessionByDay s tz now).map Segment.date).Nodup := by
  have hsplit : splitSessionByDay s tz now
      = splitLoop tz ((effectiveEnd s now - s.startAt).toNat + 1) (effectiveEnd s now) s.startAt := by
    simp only [splitSessionByDay, if_neg (by omega : ¬ effectiveEnd s now ≤ s.startAt)]
  obtain ⟨n, hn, heq⟩ := splitLoop_dates tz ((effectiveEnd s now - s.startAt).toNat + 1)
    (effectiveEnd s now) s.startAt h (by omega)
  rw [hsplit, heq]
  exact ⟨⟨n, hn, rfl⟩, consec_chain n _, consec_pairwise_lt n _, consec_nodup n _⟩

/-- C4 witness: a 27 hour UTC session starting at the epoch touches days 0
and 1 consecutively. -/
theorem C4_split_dates_consecutive_witness :
    ((0 : Int) < effectiveEnd ⟨0, some 97200000⟩ 0) ∧
    ((∃ n : Nat, 0 < n ∧
      (splitSessionByDay ⟨0, some 97200000⟩ utcTz 0).map Segment.date
        = consec (utcTz.dateOf 0) n) ∧
    List.Chain' (fun a b => b = a + 1)
      ((splitSessionByDay ⟨0, some 97200000⟩ utcTz 0).map Segment.date) ∧
    ((splitSessionByDay ⟨0, some 97200000⟩ utcTz 0).map Segment.date).Pairwise (· < ·) ∧
    ((splitSessionByDay ⟨0, some 97200000⟩ utcTz 0).map Segment.date).Nodup) :=
  ⟨by decide, C4_split_dates_consecutive ⟨0, some 97200000⟩ utcTz 0 (by decide)⟩

/-- C5: a session whose effective end is at or before its start (zero
length or inverted) splits to the empty list in every timezone; the
function is total, so this degenerate case is a defined fallback value and
not a failure. -/
theorem C5_degenerate_session_empty (s : Session) (tz : Timezone) (now : Int)
    (h : effectiveEnd s now ≤ s.startAt) : splitSessionByDay s tz now = [] := by
  simp only [splitSessionByDay, if_pos h]

/-- C5 witness: a zero-length session at instant 10 returns the empty
list. -/
theorem C5_degenerate_session_empty_witness :
    (effectiveEnd ⟨10, some 10⟩ 0 ≤ (10 : Int)) ∧
    splitSessionByDay ⟨10, some 10⟩ utcTz 0 = [] :=
  ⟨by decide, C5_degenerate_session_empty ⟨10, some 10⟩ utcTz 0 (by decide)⟩

/-- C8: an open session (endAt null) evaluated with now equal to
startAt + d splits into exactly the same segment list as the closed
session ending at startAt + d, for every startAt, duration d and timezone
(the evaluation instant of the closed session is irrelevant); the
90-minute scenario of the spec is the instance d = 5400000. -/
theorem C8_open_session_matches_closed (startAt d now2 : Int) (tz : Timezone) :
    splitSessionByDay ⟨startAt, none⟩ tz (startAt + d) =
      splitSessionByDay ⟨startAt, some (startAt + d)⟩ tz now2 := rfl

/-- C2 counterexample: the engine does not surface an invalid timezone. A
two hour session under an unrecognized zone silently yields the empty
list, the very value a valid zone returns for a degenerate session, while
under UTC the same session yields a real segment; the codomain of the
function contains no error value at all, so no distinguishable invalid
timezone failure exists. -/
theorem C2_counterexample_no_error_surfaced :
    splitSessionByDayZ ⟨0, some 7200000⟩ none 0 = [] ∧
    splitSessionByDayZ ⟨0, some 0⟩ (some utcTz) 0 = [] ∧
    splitSessionByDayZ ⟨0, some 7200000⟩ (some utcTz) 0 = [⟨0, 7200000⟩] := by
  decide

/-- C2 amended: an invalid timezone is silently tolerated, not surfaced:
all comparisons on the resulting Invalid DateTimes are false, so
splitSessionByDay returns the empty segment list for every session and
evaluation instant, indistinguishable from a valid degenerate run; with a
valid zone the computation is exactly splitSessionByDay. (Registration
validation merely checks that the timezone is a string.) -/
theorem C2_invalid_timezone_silent (s : Session) (now : Int) :
    splitSessionByDayZ s none now = [] ∧
    ∀ tz : Timezone, splitSessionByDayZ s (some tz) now = splitSessionByDay s tz now := by
  constructor
  · cases h : s.endAt <;>
      simp [splitSessionByDayZ, fromJSDate, nowInZone, dtLE, h]
  · intro tz
    cases h : s.endAt <;>
      simp [splitSessionByDayZ, splitSessionByDay, fromJSDate, nowInZone, dtLE,
        effectiveEnd, h]

/-- C6: computeProgressPercent returns exactly 100 for a non-positive
goal; for non-negative work it stays within 0 to 100; it is monotone
non-decreasing in the worked milliseconds; and it takes the documented
values at 4, 10 and 0 hours of work against an 8 hour goal. -/
theorem C6_progress_percent (w g : ℚ) :
    (g ≤ 0 → computeProgressPercent w g = 100) ∧
    (0 ≤ w → 0 ≤ computeProgressPercent w g ∧ computeProgressPercent w g ≤ 100) ∧
    (∀ w2, w ≤ w2 → computeProgressPercent w g ≤ computeProgressPercent w2 g) ∧
    computeProgressPercent (4 * 3600000) 8 = 50 ∧
    computeProgressPercent (10 * 3600000) 8 = 100 ∧
    computeProgressPercent 0 8 = 0 := by
  refine ⟨?_, ?_, ?_, ?_, ?_, ?_⟩
  · intro hg
    simp [computeProgressPercent, hg]
  · intro hw
    unfold computeProgressPercent
    split
    · norm_num
    · rename_i hg
      push_neg at hg
      constructor
      · refine le_min (by norm_num) ?_
        have hpos : (0 : ℚ) < g * 3600000 := by positivity
        exact mul_nonneg (div_nonneg hw hpos.le) (by norm_num)
      · exact min_le_left _ _
  · intro w2 hw2
    unfold computeProgressPercent
    split
    · exact le_rfl
    · rename_i hg
      push_neg at hg
      have hpos : (0 : ℚ) < g * 3600000 := by positivity
      refine min_le_min le_rfl ?_
      gcongr
  · norm_num [computeProgressPercent, min_def]
  · norm_num [computeProgressPercent, min_def]
  · norm_num [computeProgressPercent, min_def]

/-- C6 witness: the hypotheses hold and the theorem evaluates at the
documented inputs; 4 of 8 hours is within bounds and below 10 of 8
hours, and a negative goal yields 100. -/
theorem C6_progress_percent_witness :
    ((-1 : ℚ) ≤ 0 ∧ computeProgressPercent 1000 (-1) = 100) ∧
    ((0 : ℚ) ≤ 14400000 ∧ 0 ≤ computeProgressPercent 14400000 8 ∧
      computeProgressPercent 14400000 8 ≤ 100) ∧
    ((14400000 : ℚ) ≤ 36000000 ∧
      computeProgressPercent 14400000 8 ≤ computeProgressPercent 36000000 8) :=
  ⟨⟨by norm_num, (C6_progress_percent 1000 (-1)).1 (by norm_num)⟩,
   ⟨by norm_num, (C6_progress_percent 14400000 8).2.1 (by norm_num)⟩,
   ⟨by norm_num, (C6_progress_percent 14400000 8).2.2.1 36000000 (by norm_num)⟩⟩

/-- Starting the per-segment accumulation at a instead of 0 adds exactly
a: the inner foldl of the aggregation functions is a sum. -/
theorem segFold_shift (p : Segment → Prop) [DecidablePred p] :
    ∀ (l : List Segment) (a : Int),
      l.foldl (fun acc seg => if p seg then acc + seg.durationMs else acc) a
        = a + l.foldl (fun acc seg => if p seg then acc + seg.durationMs else acc) 0 := by
  intro l
  induction l with
  | nil => intro a; simp
  | cons seg l ih =>
    intro a
    simp only [List.foldl_cons]
    by_cases h : p seg
    · rw [if_pos h, if_pos h, ih (a + seg.durationMs), ih (0 + seg.durationMs)]
      omega
    · rw [if_neg h, if_neg h, ih a]

/-- The same shift property for the outer foldl over sessions. -/
theorem sessionFold_shift (tz : Timezone) (now : Int) (p : Segment → Prop)
    [DecidablePred p] :
    ∀ (sessions : List Session) (a : Int),
      sessions.foldl (fun totalMs session =>
          (splitSessionByDay session tz now).foldl
            (fun acc seg => if p seg then acc + seg.durationMs else acc) totalMs) a
        = a + sessions.foldl (fun totalMs session =>
            (splitSessionByDay session tz now).foldl
              (fun acc seg => if p seg then acc + seg.durationMs else acc) totalMs) 0 := by
  intro sessions
  induction sessions with
  | nil => intro a; simp
  | cons s l ih =>
    intro a
    simp only [List.foldl_cons]
    rw [ih, segFold_shift p (splitSessionByDay s tz now) a]
    conv_rhs => rw [ih]
    rw [segFold_shift p (splitSessionByDay s tz now) 0]
    omega

/-- C7: day aggregation is additive. Aggregating the concatenation of two
session collections for a date equals the sum of aggregating each
collection separately, for every target date, timezone and evaluation
instant; disjoint session sets are the special case where the two lists
share no session. -/
theorem C7_day_aggregation_additive (s1 s2 : List Session) (date : Int)
    (tz : Timezone) (now : Int) :
    computeDayTotal (s1 ++ s2) date tz now
      = computeDayTotal s1 date tz now + computeDayTotal s2 date tz now := by
  unfold computeDayTotal
  rw [List.foldl_append]
  rw [sessionFold_shift tz now (fun seg => seg.date = date) s2]

/-- C9: formatDuration is the zero-padded hours and minutes rendering:
the hour field is the floor of ms over an hour (stated via total minutes
in the source, an equal computation), the minute field the remainder of
total minutes by 60; a string of two or more hour digits is emitted
unchanged (no upper clamp), and the documented scenarios hold, including
the three digit 100:15. -/
theorem C9_formatDuration_spec :
    (∀ ms : Nat, formatDuration ms
        = padStart (toString (ms / 3600000)) 2 '0' ++ ":"
          ++ padStart (toString (ms / 60000 % 60)) 2 '0') ∧
    formatDuration 0 = "00:00" ∧
    formatDuration 5400000 = "01:30" ∧
    formatDuration 360900000 = "100:15" ∧
    (∀ ms : Nat, 2 ≤ (toString (ms / 3600000)).length →
      formatDuration ms
        = toString (ms / 3600000) ++ ":" ++ padStart (toString (ms / 60000 % 60)) 2 '0') := by
  have hdiv : ∀ ms : Nat, ms / 60000 / 60 = ms / 3600000 := by
    intro ms
    rw [Nat.div_div_eq_div_mul]
  refine ⟨?_, by decide, by decide, by decide, ?_⟩
  · intro ms
    simp only [formatDuration, hdiv]
  · intro ms h
    simp only [formatDuration, hdiv]
    rw [padStart, if_pos h]

/-- C9 witness: at 100 hours 15 minutes the hour string has three digits
and is emitted unchanged. -/
theorem C9_formatDuration_spec_witness :
    2 ≤ (toString ((360900000 : Nat) / 3600000)).length ∧
    formatDuration 360900000
      = toString ((360900000 : Nat) / 3600000) ++ ":"
        ++ padStart (toString ((360900000 : Nat) / 60000 % 60)) 2 '0' :=
  ⟨by decide, C9_formatDuration_spec.2.2.2.2 360900000 (by decide)⟩

/-- C10: the range aggregation over the one-element date list equals the
single-day aggregation for that date: the Set built from the dates array
degenerates to an equality test on the single date. -/
theorem C10_singleton_range_eq_day (sessions : List Session) (d : Int)
    (tz : Timezone) (now : Int) :
    computeRangeTotal sessions [d] tz now = computeDayTotal sessions d tz now := by
  unfold computeRangeTotal computeDayTotal
  simp only [List.mem_singleton]

/-- Iterating a strictly increasing step n times advances by at least n. -/
theorem iterate_add_le (f : Int → Int) (hf : ∀ t, t < f t) :
    ∀ (n : Nat) (x : Int), x + n ≤ f^[n] x := by
  intro n
  induction n with
  | zero => intro x; simp
  | succ n ih =>
    intro x
    rw [Function.iterate_succ_apply]
    have h1 := hf x
    have h2 := ih (f x)
    push_cast at h2 ⊢
    omega

/-- The date-collecting loop with sufficient fuel walks exactly n day
steps and returns the n consecutive dates from the cursor. -/
theorem datesLoop_eq (pd dof : Int → Int) (hpd : ∀ t, t < pd t)
    (hdof : ∀ t, dof (pd t) = dof t + 1) :
    ∀ (n fuel : Nat) (cursor stop : Int), pd^[n] cursor = stop → n ≤ fuel →
      datesLoop pd dof fuel cursor stop = consec (dof cursor) n := by
  intro n
  induction n with
  | zero =>
    intro fuel cursor stop hit hle
    rw [Function.iterate_zero_apply] at hit
    subst hit
    cases fuel with
    | zero => rfl
    | succ fuel => simp [datesLoop, consec, lt_irrefl]
  | succ n ih =>
    intro fuel cursor stop hit hle
    have hstep := iterate_add_le pd hpd (n + 1) cursor
    rw [hit] at hstep
    have hlt : cursor < stop := by
      push_cast at hstep
      omega
    cases fuel with
    | zero => omega
    | succ fuel =>
      rw [Function.iterate_succ_apply] at hit
      simp only [datesLoop, if_pos hlt]
      rw [ih fuel (pd cursor) stop hit (by omega), hdof cursor, consec_succ]

/-- C3 counterexample: getWeekBounds is not a function of a
caller-supplied reference instant and the timezone only. The source
signature takes only the timezone and reads the global clock through
DateTime.now(); with the same timezone argument, two runs at different
clock instants (the epoch and two weeks later, in UTC) return different
ranges and date lists, so the result depends on the hidden clock. -/
theorem C3_counterexample_hidden_clock :
    getWeekBounds utcWeekZone 0 ≠ getWeekBounds utcWeekZone 1209600000 := by
  decide

/-- C3 amended: getWeekBounds and getMonthBounds take no reference
instant; they read the evaluation-time clock. For each fixed clock
instant and timezone they are deterministic and return the
Monday-to-next-Monday local range containing that instant with the 7
consecutive dates of the week (the start falling on a Monday, day number
0 being a Thursday), and the first-of-month-to-next-first range
containing it with its consecutive ordered date list. -/
theorem C3_amended_bounds_deterministic_given_clock (wz : WeekZone) (mz : MonthZone)
    (now : Int) :
    (getWeekBounds wz now).rangeStart = wz.startOfWeek now ∧
    (getWeekBounds wz now).rangeEnd = wz.plusWeek (wz.startOfWeek now) ∧
    (getWeekBounds wz now).rangeStart ≤ now ∧
    now < (getWeekBounds wz now).rangeEnd ∧
    (wz.dateOf (getWeekBounds wz now).rangeStart + 3) % 7 = 0 ∧
    (getWeekBounds wz now).dates = consec (wz.dateOf (wz.startOfWeek now)) 7 ∧
    (getMonthBounds mz now).rangeStart = mz.startOfMonth now ∧
    (getMonthBounds mz now).rangeEnd = mz.plusMonth (mz.startOfMonth now) ∧
    (getMonthBounds mz now).rangeStart ≤ now ∧
    now < (getMonthBounds mz now).rangeEnd ∧
    ∃ n : Nat, 0 < n ∧
      (getMonthBounds mz now).dates = consec (mz.dateOf (mz.startOfMonth now)) n := by
  have h7 : wz.plusDay^[7] (wz.startOfWeek now) = wz.plusWeek (wz.startOfWeek now) := by
    rw [wz.plusWeek_iterate now]
    rfl
  have hwfuel := iterate_add_le wz.plusDay wz.lt_plusDay 7 (wz.startOfWeek now)
  rw [h7] at hwfuel
  obtain ⟨n, hn, hiter⟩ := mz.plusMonth_iterate now
  have hmfuel := iterate_add_le mz.plusDay mz.lt_plusDay n (mz.startOfMonth now)
  rw [← hiter] at hmfuel
  refine ⟨rfl, rfl, wz.startOfWeek_le now, wz.lt_plusWeek now, wz.monday_startOfWeek now,
    ?_, rfl, rfl, mz.startOfMonth_le now, mz.lt_plusMonth now, n, hn, ?_⟩
  · exact datesLoop_eq wz.plusDay wz.dateOf wz.lt_plusDay wz.dateOf_plusDay 7 _ _ _ h7
      (by push_cast at hwfuel; omega)
  · exact datesLoop_eq mz.plusDay mz.dateOf mz.lt_plusDay mz.dateOf_plusDay n _ _ _
      hiter.symm (by omega)

end WorkHourTracker
